import Mathlib

/-!
Verification of the git-diff-visualizer core (GitService and the
default-branch selection policy) against its specification.

The external git subprocess is modelled by a `RunOutcome` parameter: what
the spawned child process did (exit code, captured stdout/stderr, or a
spawn failure). Every `GitService` operation is a pure function of that
outcome, translated line by line from the TypeScript source. JavaScript
errors (rejected promises) are modelled as `Except String`, the error
being the message of the thrown `Error` object.
-/

deriving instance DecidableEq for Except

/-!
JavaScript string builtins used by the source, modelled as structurally
recursive functions over the character list of a `String` (so that every
theorem can be checked on concrete inputs by evaluation).
-/

/-- Body of `jsSplit` on the character list: JavaScript
`String.prototype.split` with a single-character separator, keeping
empty fields, so the result always has one more group than there are
separators. -/
def splitCharList (sep : Char) : List Char → List (List Char)
  | [] => [[]]
  | ch :: rest =>
    match splitCharList sep rest with
    | [] => if ch = sep then [[], []] else [[ch]]
    | g :: gs => if ch = sep then [] :: g :: gs else (ch :: g) :: gs

/-- JavaScript `s.split(sep)` for a one-character separator. -/
def jsSplit (sep : Char) (s : String) : List String :=
  (splitCharList sep s.data).map String.mk

/-- JavaScript `String.prototype.trim`: remove leading and trailing
whitespace characters. -/
def jsTrim (s : String) : String :=
  String.mk (((s.data.dropWhile Char.isWhitespace).reverse.dropWhile
    Char.isWhitespace).reverse)

/-- JavaScript `s.startsWith(c)` for a one-character argument: the first
character of `s` is `c`. -/
def jsStartsWith (s : String) (c : Char) : Bool :=
  match s.data with
  | [] => false
  | a :: _ => a = c

/-- Lexicographic code-point order on character lists, the model of
JavaScript `a.localeCompare(b) <= 0` used by the branch sort (they agree
on ASCII branch names). -/
def charListLE : List Char → List Char → Bool
  | [], _ => true
  | _ :: _, [] => false
  | a :: as, b :: bs => if a = b then charListLE as bs else decide (a < b)

/-- Outcome of the spawned child process observed by `GitService.run`:
either the `close` event with an exit code and the accumulated stdout and
stderr text, or the `error` event (spawn failure: tool missing,
permission denied). -/
inductive RunOutcome where
  | closed (exitCode : Int) (stdout : String) (stderr : String)
  | spawnFailed (message : String)
deriving Repr, DecidableEq

/-- One parsed change record. The source interface `FileInfo` also carries
`absolutePath`, `fileName` and `directory`, derived from `repoRoot` and
`filePath` by the Node path module (`path.join`, `path.basename`,
`path.dirname`); those derived presentation fields are not modelled here,
but the TypeError thrown by `path.join` when `filePath` is `undefined` is
(see `parseNameStatusLine`). -/
structure FileInfo where
  status : String
  filePath : String
  originalPath : Option String
deriving Repr, DecidableEq

/-- How a child process is started. `shellCommand` means a single command
line handed to the system shell (which interprets metacharacters);
`argVector` means an execve-style program plus argument vector with no
shell involved. -/
inductive Invocation where
  | shellCommand (commandLine : String)
  | argVector (program : String) (args : List String)
deriving Repr, DecidableEq

namespace GitService

/-- GitService.run (src/media/main.js lines 251-278): on the close event
with code 0 it resolves `stdout.trim()`; on nonzero code it rejects with
`Git command failed: <stderr or stdout>` (stderr when non-empty, else
stdout); on the spawn error event it rejects with that error. -/
def run (outcome : RunOutcome) : Except String String :=
  match outcome with
  | .closed exitCode stdout stderr =>
    if exitCode = 0 then
      .ok (jsTrim stdout)
    else
      .error ("Git command failed: " ++ (if stderr == "" then stdout else stderr))
  | .spawnFailed message => .error message

/-- The invocation GitService.run constructs (src/media/main.js line 253):
`cp.spawn` with the option `shell: true`, under which Node joins the
program name and the arguments into one command line (no quoting added)
and hands it to the system shell. -/
def runInvocation (args : List String) : Invocation :=
  .shellCommand (String.intercalate " " ("git" :: args))

/-- Per-line parsing body of getChangedFiles (src/media/main.js lines
315-330): split the line on tab; `parts[0]` is the status; when the
status starts with "R" the path is `parts[2]` and the original path
`parts[1]`, otherwise the path is `parts[1]`. When the selected path
field is absent (`undefined` in JavaScript), the subsequent
`path.join(repoRoot, filePath)` throws a TypeError, rejecting the whole
operation. -/
def parseNameStatusLine (line : String) : Except String FileInfo :=
  let parts := jsSplit '\t' line
  let status := parts.headD ""
  let filePath := if jsStartsWith status 'R' then parts[2]? else parts[1]?
  let originalPath := if jsStartsWith status 'R' then parts[1]? else none
  match filePath with
  | some fp => .ok { status := status, filePath := fp, originalPath := originalPath }
  | none => .error "TypeError: the path argument must be of type string, received undefined"

/-- The `.map` over lines in getChangedFiles: a throw at any element
rejects the whole operation with the first error. -/
def parseNameStatusLines : List String → Except String (List FileInfo)
  | [] => .ok []
  | line :: rest =>
    match parseNameStatusLine line with
    | .error e => .error e
    | .ok fi =>
      match parseNameStatusLines rest with
      | .error e => .error e
      | .ok fis => .ok (fi :: fis)

/-- GitService.getChangedFiles (src/media/main.js lines 305-332) as a
function of the diff subprocess outcome: propagate a run failure; on
empty (falsy) output return `[]`; otherwise split on newline, drop lines
that are blank after trimming, and parse each remaining line. -/
def getChangedFiles (outcome : RunOutcome) : Except String (List FileInfo) :=
  match run outcome with
  | .error e => .error e
  | .ok output =>
    if output == "" then .ok []
    else parseNameStatusLines ((jsSplit '\n' output).filter fun l => jsTrim l != "")

/-- GitService.getFileContent (src/media/main.js lines 334-341) as a
function of the show subprocess outcome: the run result on success, the
empty string on any failure. -/
def getFileContent (outcome : RunOutcome) : Except String String :=
  match run outcome with
  | .ok content => .ok content
  | .error _ => .ok ""

/-- GitService.getMergeBase (src/media/main.js lines 297-303) as a
function of the merge-base subprocess outcome: the run result on
success; on any failure it rejects with an error naming the target. -/
def getMergeBase (target : String) (outcome : RunOutcome) : Except String String :=
  match run outcome with
  | .ok base => .ok base
  | .error _ =>
    .error ("Could not determine common ancestor with \"" ++ target ++ "\".")

end GitService

/-- The invocation built by runGitCommand (src/unnamed/part_000 lines
3-13): `cp.exec` of the template string `git <command>`, which always
runs through the system shell. -/
def runGitCommandInvocation (command : String) : Invocation :=
  .shellCommand ("git " ++ command)

/-- Modelled from the spec: section 3 of the specification classifies a
raw status code by its first letter (A, M, D, R, C, T, U; remaining
characters are a similarity percentage). The source keeps the raw string
and only ever branches on its first letter. This definition exists to
compare spec vocabulary (the enum) with the raw codes of the source. -/
inductive FileStatus where
  | Added
  | Modified
  | Deleted
  | Renamed
  | Copied
  | TypeChanged
  | Unmerged
  | Unknown
deriving Repr, DecidableEq

/-- Modelled from the spec: the first character of the status field
determines the status; any further characters are discarded. -/
def specStatusOfCode (code : String) : FileStatus :=
  match code.data with
  | [] => .Unknown
  | c :: _ =>
    if c = 'A' then .Added
    else if c = 'M' then .Modified
    else if c = 'D' then .Deleted
    else if c = 'R' then .Renamed
    else if c = 'C' then .Copied
    else if c = 'T' then .TypeChanged
    else if c = 'U' then .Unmerged
    else .Unknown

/-- Fallback of the default-branch policy (src/unnamed/part_001 line 112
and line 463): the first branch literally named main or master, else the
first enumerated branch (`undefined` when the list is empty). -/
def conventionalOrFirst (branches : List String) : Option String :=
  match branches.find? (fun b => b == "main" || b == "master") with
  | some b => some b
  | none => branches.head?

/-- Default-branch resolution (src/unnamed/part_001 lines 110-113 and
460-464): keep the saved default when it is truthy (defined and
non-empty) and contained in the enumerated list, else fall back to
`conventionalOrFirst`. -/
def resolveDefaultBranch (savedDefault : Option String) (branches : List String) :
    Option String :=
  match savedDefault with
  | none => conventionalOrFirst branches
  | some d =>
    if d == "" || !(branches.contains d) then conventionalOrFirst branches else some d

/-- The sort comparator of src/unnamed/part_001 lines 115-123 and
468-472, rendered as a boolean "a sorts no later than b": the comparator
returns -1 when a is the default, 1 when b is (and a is not), else
`a.localeCompare(b)`; `localeCompare` is modelled as code-point order,
with which it coincides on ASCII branch names. -/
def branchLE (defaultBranch : Option String) (a b : String) : Bool :=
  if some a == defaultBranch then true
  else if some b == defaultBranch then false
  else charListLE a.data b.data

/-- The comparator as a decidable relation, for use with a sort. -/
def branchRel (defaultBranch : Option String) (a b : String) : Prop :=
  branchLE defaultBranch a b = true

instance (d : Option String) : DecidableRel (branchRel d) :=
  fun _ _ => Bool.decEq _ _

/-- The `branches.sort(comparator)` call. For a consistent comparator the
JavaScript specification makes Array.prototype.sort produce the unique
stable sorted permutation, which is what insertion sort computes. -/
def sortBranches (defaultBranch : Option String) (branches : List String) : List String :=
  List.insertionSort (branchRel defaultBranch) branches

/-!
Helper lemmas about the per-line parser.
-/

/-- A successfully parsed record takes its status from the first
tab-separated field, and carries an original path exactly when that
status starts with the rename letter. -/
theorem parseNameStatusLine_ok {line : String} {fi : FileInfo}
    (h : GitService.parseNameStatusLine line = .ok fi) :
    fi.status = (jsSplit '\t' line).headD "" ∧
    (fi.originalPath.isSome ↔ jsStartsWith fi.status 'R' = true) := by
  simp only [GitService.parseNameStatusLine] at h
  by_cases hR : jsStartsWith ((jsSplit '\t' line).headD "") 'R' = true
  · rw [if_pos hR, if_pos hR] at h
    cases h2 : (jsSplit '\t' line)[2]? with
    | none => rw [h2] at h; exact absurd h (by simp)
    | some fp =>
      rw [h2] at h
      simp only [Except.ok.injEq] at h
      subst h
      refine ⟨rfl, ?_⟩
      have hlen : 2 < (jsSplit '\t' line).length := by
        rcases List.getElem?_eq_some_iff.mp h2 with ⟨hl, _⟩
        exact hl
      have h1 : 1 < (jsSplit '\t' line).length := by omega
      simp only [hR, iff_true]
      rw [List.getElem?_eq_getElem h1]
      rfl
  · rw [if_neg hR, if_neg hR] at h
    cases h2 : (jsSplit '\t' line)[1]? with
    | none => rw [h2] at h; exact absurd h (by simp)
    | some fp =>
      rw [h2] at h
      simp only [Except.ok.injEq] at h
      subst h
      refine ⟨rfl, ?_⟩
      simp only [Option.isSome_none, Bool.false_eq_true, false_iff]
      exact hR

/-- Every record of a successfully parsed block of lines comes from one
of those lines. -/
theorem parseNameStatusLines_mem {lines : List String} {files : List FileInfo}
    (h : GitService.parseNameStatusLines lines = .ok files) {fi : FileInfo}
    (hm : fi ∈ files) :
    ∃ line, line ∈ lines ∧ GitService.parseNameStatusLine line = .ok fi := by
  induction lines generalizing files with
  | nil =>
    simp only [GitService.parseNameStatusLines, Except.ok.injEq] at h
    subst h
    exact absurd hm (by simp)
  | cons line rest ih =>
    simp only [GitService.parseNameStatusLines] at h
    cases h1 : GitService.parseNameStatusLine line with
    | error e => rw [h1] at h; exact absurd h (by simp)
    | ok f =>
      rw [h1] at h
      cases h2 : GitService.parseNameStatusLines rest with
      | error e => rw [h2] at h; exact absurd h (by simp)
      | ok fs =>
        rw [h2] at h
        simp only [Except.ok.injEq] at h
        subst h
        rcases List.mem_cons.mp hm with heq | hmem
        · exact ⟨line, List.mem_cons_self line rest, heq ▸ h1⟩
        · rcases ih h2 hmem with ⟨l, hl, hp⟩
          exact ⟨l, List.mem_cons_of_mem line hl, hp⟩

/-- The statuses of a successfully parsed block are exactly the first
fields of the lines, in the same order. -/
theorem parseNameStatusLines_status_map {lines : List String} {files : List FileInfo}
    (h : GitService.parseNameStatusLines lines = .ok files) :
    files.map FileInfo.status = lines.map (fun line => (jsSplit '\t' line).headD "") := by
  induction lines generalizing files with
  | nil =>
    simp only [GitService.parseNameStatusLines, Except.ok.injEq] at h
    subst h
    rfl
  | cons line rest ih =>
    simp only [GitService.parseNameStatusLines] at h
    cases h1 : GitService.parseNameStatusLine line with
    | error e => rw [h1] at h; exact absurd h (by simp)
    | ok f =>
      rw [h1] at h
      cases h2 : GitService.parseNameStatusLines rest with
      | error e => rw [h2] at h; exact absurd h (by simp)
      | ok fs =>
        rw [h2] at h
        simp only [Except.ok.injEq] at h
        subst h
        simp only [List.map_cons]
        rw [(parseNameStatusLine_ok h1).1, ih h2]

/-- Every record of a successful getChangedFiles result comes from a
successfully parsed line. -/
theorem getChangedFiles_ok_mem {outcome : RunOutcome} {files : List FileInfo}
    (h : GitService.getChangedFiles outcome = .ok files) {fi : FileInfo}
    (hm : fi ∈ files) :
    ∃ line, GitService.parseNameStatusLine line = .ok fi := by
  simp only [GitService.getChangedFiles] at h
  split at h
  · exact absurd h (by simp)
  · split at h
    · simp only [Except.ok.injEq] at h
      subst h
      exact absurd hm (by simp)
    · rcases parseNameStatusLines_mem h hm with ⟨line, _, hp⟩
      exact ⟨line, hp⟩

/-- A status string starts with the letter R exactly when the spec
classifies it as Renamed. -/
theorem jsStartsWith_R_iff (s : String) :
    jsStartsWith s 'R' = true ↔ specStatusOfCode s = FileStatus.Renamed := by
  rcases s with ⟨data⟩
  cases data with
  | nil => simp [jsStartsWith, specStatusOfCode]
  | cons c cs =>
    simp only [jsStartsWith, specStatusOfCode, decide_eq_true_eq]
    by_cases hc : c = 'R'
    · subst hc; simp
    · simp only [hc, false_iff]
      split_ifs <;> simp_all

/-!
Claim theorems.
-/

/-- C1, counterexample: a copied line (status code starting with C) is
parsed by getChangedFiles into a record whose originalPath is absent —
and whose path is the old path, not the new one — so originalPath is not
set for Copied statuses, only for Renamed ones. -/
theorem C1_counterexample :
    GitService.getChangedFiles (.closed 0 "C75\told.txt\tnew.txt" "") =
      .ok [{ status := "C75", filePath := "old.txt", originalPath := none }] ∧
    specStatusOfCode "C75" = FileStatus.Copied ∧
    ({ status := "C75", filePath := "old.txt", originalPath := none } : FileInfo).originalPath
      = none := by
  refine ⟨by decide, by decide, rfl⟩

/-- C1, amended: for every record of a successful getChangedFiles result,
originalPath is set if and only if the status is Renamed (status code
starting with R); Copied statuses, like all others, leave it absent. -/
theorem C1_originalPath_iff_renamed (outcome : RunOutcome) (files : List FileInfo)
    (fi : FileInfo) (hok : GitService.getChangedFiles outcome = .ok files)
    (hmem : fi ∈ files) :
    fi.originalPath.isSome ↔ specStatusOfCode fi.status = FileStatus.Renamed := by
  rcases getChangedFiles_ok_mem hok hmem with ⟨line, hp⟩
  rw [(parseNameStatusLine_ok hp).2]
  exact jsStartsWith_R_iff fi.status

/-- C1, witness: a rename line gives a record with originalPath set and
status Renamed, as the amended theorem states. -/
theorem C1_witness :
    GitService.getChangedFiles (.closed 0 "R100\told/a.txt\tnew/a.txt" "") =
      .ok [{ status := "R100", filePath := "new/a.txt", originalPath := some "old/a.txt" }] ∧
    (({ status := "R100", filePath := "new/a.txt",
        originalPath := some "old/a.txt" } : FileInfo).originalPath.isSome ↔
      specStatusOfCode "R100" = FileStatus.Renamed) :=
  ⟨by decide,
   C1_originalPath_iff_renamed (.closed 0 "R100\told/a.txt\tnew/a.txt" "")
     [{ status := "R100", filePath := "new/a.txt", originalPath := some "old/a.txt" }]
     { status := "R100", filePath := "new/a.txt", originalPath := some "old/a.txt" }
     (by decide) (by decide)⟩

/-- C2: on a non-rename line carrying three tab-separated fields — an
unexpected field count — getChangedFiles succeeds with a record built
from the first two fields, silently dropping the third; it does not fail
the operation with any parse error carrying the raw line. -/
theorem C2_extra_field_silently_dropped :
    GitService.getChangedFiles (.closed 0 "M\tfoo\tbar" "") =
      .ok [{ status := "M", filePath := "foo", originalPath := none }] := by
  decide

/-- C3: both command runners of the source hand git a single
shell-interpreted command line. GitService.run spawns with the shell
option enabled, so the argument vector is joined into one command line
in which a branch name containing a metacharacter is spliced verbatim,
and runGitCommand interpolates the command into a template string run by
the shell; neither ever issues a plain argument vector. -/
theorem C3_shell_interpolated_invocation :
    GitService.runInvocation ["merge-base", "pwn;touch owned", "HEAD"] =
      Invocation.shellCommand "git merge-base pwn;touch owned HEAD" ∧
    runGitCommandInvocation "merge-base \"pwn;touch owned\" HEAD" =
      Invocation.shellCommand "git merge-base \"pwn;touch owned\" HEAD" ∧
    (∀ args : List String, ∃ commandLine,
      GitService.runInvocation args = Invocation.shellCommand commandLine) ∧
    ∀ command : String, ∃ commandLine,
      runGitCommandInvocation command = Invocation.shellCommand commandLine := by
  exact ⟨by decide, by decide, fun args => ⟨_, rfl⟩, fun command => ⟨_, rfl⟩⟩

/-- C4: whenever the show subprocess exits nonzero, getFileContent
succeeds with the empty string, and getFileContent never returns an
error for any outcome at all. -/
theorem C4_getFileContent_empty_on_failure :
    (∀ (exitCode : Int) (stdout stderr : String), exitCode ≠ 0 →
      GitService.getFileContent (.closed exitCode stdout stderr) = .ok "") ∧
    ∀ outcome : RunOutcome, ∃ content, GitService.getFileContent outcome = .ok content := by
  constructor
  · intro exitCode stdout stderr h
    simp only [GitService.getFileContent, GitService.run, if_neg h]
  · intro outcome
    simp only [GitService.getFileContent]
    cases GitService.run outcome with
    | ok content => exact ⟨content, rfl⟩
    | error e => exact ⟨"", rfl⟩

/-- C4, witness: a nonzero exit (file absent at the ref) yields the empty
string as a successful result. -/
theorem C4_witness :
    GitService.getFileContent (.closed 128 "" "fatal: path does not exist") = .ok "" :=
  C4_getFileContent_empty_on_failure.1 128 "" "fatal: path does not exist" (by decide)

/-- C5: whenever the merge-base subprocess fails (nonzero exit, or spawn
failure), getMergeBase fails with the error naming the requested target
ref by quoting it in the message; it does not succeed with any fallback
value. -/
theorem C5_mergeBase_failure_names_target :
    (∀ (target : String) (exitCode : Int) (stdout stderr : String), exitCode ≠ 0 →
      GitService.getMergeBase target (.closed exitCode stdout stderr) =
        .error ("Could not determine common ancestor with \"" ++ target ++ "\".")) ∧
    ∀ (target message : String),
      GitService.getMergeBase target (.spawnFailed message) =
        .error ("Could not determine common ancestor with \"" ++ target ++ "\".") := by
  constructor
  · intro target exitCode stdout stderr h
    simp only [GitService.getMergeBase, GitService.run, if_neg h]
  · intro target message
    rfl

/-- C5, witness: a failed merge-base lookup for target "feature" fails
with the message quoting "feature". -/
theorem C5_witness :
    GitService.getMergeBase "feature" (.closed 1 "" "fatal: no merge base") =
      .error "Could not determine common ancestor with \"feature\"." :=
  C5_mergeBase_failure_names_target.1 "feature" 1 "" "fatal: no merge base" (by decide)

/-- C6: per-line parsing splits on tab; a modified line yields a
Modified record with no original path, a rename line with similarity
score yields a Renamed record whose path is the third field and original
path the second; and the status classification depends only on the first
character of the status field, discarding the rest. -/
theorem C6_per_line_parsing :
    GitService.parseNameStatusLine "M\tfoo/bar.txt" =
      .ok { status := "M", filePath := "foo/bar.txt", originalPath := none } ∧
    specStatusOfCode "M" = FileStatus.Modified ∧
    GitService.parseNameStatusLine "R100\told/a.txt\tnew/a.txt" =
      .ok { status := "R100", filePath := "new/a.txt", originalPath := some "old/a.txt" } ∧
    specStatusOfCode "R100" = FileStatus.Renamed ∧
    ∀ (c : Char) (rest : List Char),
      specStatusOfCode (String.mk (c :: rest)) = specStatusOfCode (String.mk [c]) := by
  exact ⟨by decide, by decide, by decide, by decide, fun c rest => rfl⟩

/-- C7: a diff subprocess that exits 0 with whitespace-only output makes
getChangedFiles return the empty list as a successful result, while a
failing lookup surfaces as an error value, so the two are
distinguishable by the caller. -/
theorem C7_no_changes_empty_list (stdout stderr : String) (h : jsTrim stdout = "") :
    GitService.getChangedFiles (.closed 0 stdout stderr) = .ok [] ∧
    ∀ (exitCode : Int) (out err : String), exitCode ≠ 0 →
      ∃ e, GitService.getChangedFiles (.closed exitCode out err) = .error e := by
  constructor
  · simp only [GitService.getChangedFiles, GitService.run, if_pos rfl, h]
    rfl
  · intro exitCode out err hne
    refine ⟨"Git command failed: " ++ (if err == "" then out else err), ?_⟩
    simp only [GitService.getChangedFiles, GitService.run, if_neg hne]

/-- C7, witness: whitespace-only diff output gives the empty list. -/
theorem C7_witness : GitService.getChangedFiles (.closed 0 " \n " "") = .ok [] :=
  (C7_no_changes_empty_list " \n " "" (by decide)).1

/-- C8: getChangedFiles keeps the records in the order of the output
lines — the example output parses to Added, Deleted, Modified in that
input order, and in general the sequence of record statuses equals the
sequence of first fields of the parsed lines. -/
theorem C8_output_order_preserved :
    GitService.getChangedFiles (.closed 0 "A\tnew.txt\nD\told.txt\nM\tkept.txt\n" "") =
      .ok [{ status := "A", filePath := "new.txt", originalPath := none },
           { status := "D", filePath := "old.txt", originalPath := none },
           { status := "M", filePath := "kept.txt", originalPath := none }] ∧
    ["A", "D", "M"].map specStatusOfCode =
      [FileStatus.Added, FileStatus.Deleted, FileStatus.Modified] ∧
    ∀ (lines : List String) (files : List FileInfo),
      GitService.parseNameStatusLines lines = .ok files →
      files.map FileInfo.status = lines.map (fun line => (jsSplit '\t' line).headD "") := by
  exact ⟨by decide, by decide, fun lines files h => parseNameStatusLines_status_map h⟩

/-- C8, witness: the order-preservation clause evaluated on the example
lines. -/
theorem C8_witness :
    ([{ status := "A", filePath := "new.txt", originalPath := none },
      { status := "D", filePath := "old.txt", originalPath := none },
      { status := "M", filePath := "kept.txt", originalPath := none }] :
        List FileInfo).map FileInfo.status =
      ["A\tnew.txt", "D\told.txt", "M\tkept.txt"].map
        (fun line => (jsSplit '\t' line).headD "") :=
  C8_output_order_preserved.2.2 ["A\tnew.txt", "D\told.txt", "M\tkept.txt"]
    [{ status := "A", filePath := "new.txt", originalPath := none },
     { status := "D", filePath := "old.txt", originalPath := none },
     { status := "M", filePath := "kept.txt", originalPath := none }] (by decide)

/-- C10: every successful run result is the whitespace-trimmed stdout,
so getFileContent returns the stored content trimmed: a trailing newline
is removed, and a whitespace-only file comes back as the empty string,
indistinguishable from a file absent at the ref. -/
theorem C10_success_is_trimmed_stdout :
    (∀ stdout stderr : String,
      GitService.run (.closed 0 stdout stderr) = .ok (jsTrim stdout)) ∧
    (∀ stdout stderr : String,
      GitService.getFileContent (.closed 0 stdout stderr) = .ok (jsTrim stdout)) ∧
    GitService.getFileContent (.closed 0 "hello\n" "") = .ok "hello" ∧
    GitService.getFileContent (.closed 0 " \n\t " "") = .ok "" ∧
    GitService.getFileContent (.closed 128 "" "fatal: missing") = .ok "" := by
  refine ⟨fun stdout stderr => rfl, fun stdout stderr => rfl, by decide, by decide, by decide⟩

/-!
Helper lemmas for the branch sort comparator.
-/

/-- The lexicographic character-list order is total. -/
theorem charListLE_total (a b : List Char) : charListLE a b = true ∨ charListLE b a = true := by
  induction a generalizing b with
  | nil => left; rfl
  | cons x xs ih =>
    cases b with
    | nil => right; rfl
    | cons y ys =>
      by_cases hxy : x = y
      · subst hxy
        simp only [charListLE, if_pos rfl]
        exact ih ys
      · rcases lt_or_gt_of_ne hxy with h | h
        · left
          simp only [charListLE, if_neg hxy, decide_eq_true_eq]
          exact h
        · right
          simp only [charListLE, if_neg (Ne.symm hxy), decide_eq_true_eq]
          exact h

/-- The lexicographic character-list order is transitive. -/
theorem charListLE_trans {a b c : List Char} (h1 : charListLE a b = true)
    (h2 : charListLE b c = true) : charListLE a c = true := by
  induction a generalizing b c with
  | nil => rfl
  | cons x xs ih =>
    cases b with
    | nil => simp [charListLE] at h1
    | cons y ys =>
      cases c with
      | nil => simp [charListLE] at h2
      | cons z zs =>
        simp only [charListLE] at h1 h2 ⊢
        by_cases hxy : x = y
        · subst hxy
          rw [if_pos rfl] at h1
          by_cases hxz : x = z
          · subst hxz
            rw [if_pos rfl] at h2 ⊢
            exact ih h1 h2
          · rw [if_neg hxz] at h2 ⊢
            exact h2
        · rw [if_neg hxy, decide_eq_true_eq] at h1
          by_cases hyz : y = z
          · subst hyz
            rw [if_neg hxy, decide_eq_true_eq]
            exact h1
          · rw [if_neg hyz, decide_eq_true_eq] at h2
            have hxz : x < z := lt_trans h1 h2
            rw [if_neg (ne_of_lt hxz), decide_eq_true_eq]
            exact hxz

/-- The branch comparator is total. -/
theorem branchLE_total (d : Option String) (a b : String) :
    branchLE d a b = true ∨ branchLE d b a = true := by
  unfold branchLE
  by_cases ha : (some a == d) = true
  · left
    rw [if_pos ha]
  · by_cases hb : (some b == d) = true
    · right
      rw [if_pos hb]
    · simp only [if_neg ha, if_neg hb]
      exact charListLE_total a.data b.data

/-- The branch comparator is transitive. -/
theorem branchLE_trans (d : Option String) {a b c : String} (h1 : branchLE d a b = true)
    (h2 : branchLE d b c = true) : branchLE d a c = true := by
  unfold branchLE at h1 h2 ⊢
  by_cases ha : (some a == d) = true
  · rw [if_pos ha]
  · rw [if_neg ha] at h1 ⊢
    by_cases hb : (some b == d) = true
    · rw [if_pos hb] at h1
      exact absurd h1 (by simp)
    · rw [if_neg hb] at h1 h2
      by_cases hc : (some c == d) = true
      · rw [if_pos hc] at h2
        exact absurd h2 (by simp)
      · rw [if_neg hc] at h2 ⊢
        exact charListLE_trans h1 h2

/-- The sorted branch list is pairwise ordered by the comparator. -/
theorem sortBranches_pairwise (d : Option String) (branches : List String) :
    (sortBranches d branches).Pairwise (branchRel d) := by
  haveI : IsTotal String (branchRel d) := ⟨fun a b => branchLE_total d a b⟩
  haveI : IsTrans String (branchRel d) := ⟨fun _ _ _ h1 h2 => branchLE_trans d h1 h2⟩
  exact List.sorted_insertionSort (branchRel d) branches

/-- The sort is a permutation of the input. -/
theorem sortBranches_perm (d : Option String) (branches : List String) :
    List.Perm (sortBranches d branches) branches :=
  List.perm_insertionSort (branchRel d) branches

/-- When the resolved default occurs in the branch list, the sorted list
places it first. -/
theorem sortBranches_head (d : String) (branches : List String) (hd : d ∈ branches) :
    (sortBranches (some d) branches).head? = some d := by
  have hp := sortBranches_pairwise (some d) branches
  have hmem : d ∈ sortBranches (some d) branches :=
    (sortBranches_perm (some d) branches).symm.subset hd
  cases hL : sortBranches (some d) branches with
  | nil => rw [hL] at hmem; exact absurd hmem (by simp)
  | cons a rest =>
    rw [hL] at hmem hp
    by_cases had : a = d
    · rw [had]
      rfl
    · exfalso
      rcases List.mem_cons.mp hmem with heq | hmemr
      · exact had heq.symm
      · have hr : branchRel (some d) a d := List.rel_of_pairwise_cons hp hmemr
        unfold branchRel branchLE at hr
        simp [had] at hr

/-- The non-default part of the sorted list is in lexicographic order. -/
theorem sortBranches_rest_lex (d : String) (branches : List String) :
    ((sortBranches (some d) branches).filter (fun b => b != d)).Pairwise
      (fun a b => charListLE a.data b.data = true) := by
  have hp := sortBranches_pairwise (some d) branches
  have hsub :
      ((sortBranches (some d) branches).filter (fun b => b != d)).Pairwise
        (branchRel (some d)) :=
    hp.sublist (List.filter_sublist _)
  refine List.Pairwise.imp_of_mem ?_ hsub
  intro a b ha hb hr
  have ha2 : a ≠ d := by simpa using (List.mem_filter.mp ha).2
  have hb2 : b ≠ d := by simpa using (List.mem_filter.mp hb).2
  unfold branchRel branchLE at hr
  simpa [ha2, hb2] using hr

/-- C9: default-branch resolution keeps the saved default when it occurs
in the enumerated list (enumerated lists never contain the empty
string); otherwise it falls back to the first branch named main or
master, else the first enumerated branch (conventionalOrFirst); with no
saved default the same fallback applies; on the spec examples a saved
"feature-x" absent from ["dev", "main"] resolves to "main" and no saved
default over ["dev", "feat"] resolves to "dev"; and the presented order
is a permutation of the branches with the resolved default first and the
rest in lexicographic order. -/
theorem C9_default_branch_selection :
    (∀ (d : String) (branches : List String), d ∈ branches → "" ∉ branches →
      resolveDefaultBranch (some d) branches = some d) ∧
    (∀ (d : String) (branches : List String), d ∉ branches →
      resolveDefaultBranch (some d) branches = conventionalOrFirst branches) ∧
    (∀ branches : List String,
      resolveDefaultBranch none branches = conventionalOrFirst branches) ∧
    resolveDefaultBranch (some "feature-x") ["dev", "main"] = some "main" ∧
    resolveDefaultBranch none ["dev", "feat"] = some "dev" ∧
    (∀ (d : String) (branches : List String), d ∈ branches →
      (sortBranches (some d) branches).head? = some d) ∧
    (∀ (d : String) (branches : List String),
      ((sortBranches (some d) branches).filter (fun b => b != d)).Pairwise
        (fun a b => charListLE a.data b.data = true)) ∧
    ∀ (d : Option String) (branches : List String),
      List.Perm (sortBranches d branches) branches := by
  refine ⟨?_, ?_, fun branches => rfl, by decide, by decide,
    sortBranches_head, sortBranches_rest_lex, sortBranches_perm⟩
  · intro d branches hmem hempty
    have hne : d ≠ "" := by rintro rfl; exact hempty hmem
    have hcond : (d == "" || !(branches.contains d)) = false := by
      simp [hne, hmem]
    simp only [resolveDefaultBranch]
    rw [hcond]
    simp
  · intro d branches hmem
    have hcond : (d == "" || !(branches.contains d)) = true := by
      simp [hmem]
    simp only [resolveDefaultBranch]
    rw [hcond]
    simp

/-- C9, witness: the selection and ordering clauses evaluated on
concrete branch lists. -/
theorem C9_witness :
    resolveDefaultBranch (some "dev") ["dev", "main"] = some "dev" ∧
    resolveDefaultBranch (some "gone") ["dev", "feat"] = conventionalOrFirst ["dev", "feat"] ∧
    (sortBranches (some "main") ["zeta", "main", "alpha"]).head? = some "main" :=
  ⟨C9_default_branch_selection.1 "dev" ["dev", "main"] (by decide) (by decide),
   C9_default_branch_selection.2.1 "gone" ["dev", "feat"] (by decide),
   C9_default_branch_selection.2.2.2.2.2.1 "main" ["zeta", "main", "alpha"] (by decide)⟩
